import Mathlib

/-!
Shallow embedding of `src/bin/git-at.rs` (the `git-at` tool): a program that
walks a repository's history from a starting revision, in time order, and
returns the first commit whose message matches a PCRE pattern.

External collaborators (libgit2, pcre2, the OS process facility) are modelled
abstractly: a `Repository` is a bundle of fallible lookup functions, a compiled
PCRE pattern is a `RegularExpression Char` (the compilation step of pcre2 is
represented by its outcome, `Except PcreErr Pattern`), and the external viewer
is an injected function from identifier to optional exit code.
-/

namespace GitAt

open RegularExpression

/-- A git object id (`git2::Oid`), abstracted to a natural number. -/
abbrev Oid := Nat

/-- The part of `git2::ErrorCode` the program inspects: `NotFound` vs anything else. -/
inductive GitCode where
  | notFound
  | other
deriving DecidableEq

/-- A `git2::Error`: its code and its display text. -/
structure GitErr where
  code : GitCode
  msg : String
deriving DecidableEq

/-- A commit as the program uses it: its id and its message bytes
(`commit.id()`, `commit.message_bytes()`), message as a character list. -/
structure Commit where
  id : Oid
  message : List Char
deriving DecidableEq

/-- The repository backend (`git2::Repository`) as used by `run`:
`revparse_single` resolves revision text to an object id; `walk` is
`revwalk` + `set_sorting bits` + `push oid`, yielding the iterator's items
(each item may itself be an error, as in the Rust iterator of `Result`);
`find_commit` loads a commit by id. -/
structure Repository where
  revparse_single : String → Except GitErr Oid
  walk : Nat → Oid → Except GitErr (List (Except GitErr Oid))
  find_commit : Oid → Except GitErr Commit

/-- The `ExitStatus` enum of the source. -/
inductive ExitStatus where
  | Success
  | NonFatal
  | Fatal
  | ExternalProgramFailed
deriving DecidableEq

/-- The numeric value of each `ExitStatus` (its `as i32` discriminant). -/
def ExitStatus.toCode : ExitStatus → Int
  | .Success => 0
  | .NonFatal => 1
  | .Fatal => 2
  | .ExternalProgramFailed => 3

/-- The `ErrorKind` enum of the source. -/
inductive ErrorKind where
  | NoSuchRevision
  | GitError
  | PCREError
  | IOError
deriving DecidableEq

/-- The display text of a `pcre2::Error` (its compile diagnostic). -/
abbrev PcreErr := String

/-- The display text of an `io::Error`. -/
abbrev IoErr := String

/-- The `Error` struct of the source: a kind plus the optional underlying
error, kept as its display text. -/
structure Error where
  kind : ErrorKind
  internal : Option String
deriving DecidableEq

/-- `Error::new(kind, error)`. -/
def Error.new (kind : ErrorKind) (error : Option String) : Error :=
  ⟨kind, error⟩

/-- The `fmt::Display` impl for `Error`, producing the message text. -/
def Error.fmt : Error → String
  | ⟨.NoSuchRevision, _⟩ => "fatal: needed a single revision"
  | ⟨.PCREError, some e⟩ => "fatal: invalid regular expression: " ++ e
  | ⟨.PCREError, none⟩ => "fatal: invalid regular expression"
  | ⟨.IOError, some e⟩ => "fatal: I/O error: " ++ e
  | ⟨.IOError, none⟩ => "fatal: unknown I/O error"
  | ⟨.GitError, some e⟩ => "fatal: " ++ e
  | ⟨.GitError, none⟩ => "fatal: an unknown error occurred"

/-- `Error::exit_status`. -/
def Error.exit_status (e : Error) : ExitStatus :=
  match e.kind with
  | .NoSuchRevision => .NonFatal
  | _ => .Fatal

/-- `Error::fatal`. -/
def Error.fatal (e : Error) : Bool :=
  e.exit_status = ExitStatus.Fatal

/-- The `PartialEq` impl for `Error`: two errors compare equal when their
kinds agree (the `internal` payload is ignored). -/
def Error.eqv (a b : Error) : Bool :=
  a.kind = b.kind

/-- `impl From<git2::Error> for Error`: `NotFound` becomes `NoSuchRevision`,
everything else `GitError`. -/
def Error.fromGit (e : GitErr) : Error :=
  Error.new (match e.code with | .notFound => .NoSuchRevision | .other => .GitError)
    (some e.msg)

/-- `impl From<pcre2::Error> for Error`. -/
def Error.fromPcre (e : PcreErr) : Error :=
  Error.new .PCREError (some e)

/-- `impl From<io::Error> for Error`. -/
def Error.fromIoError (e : IoErr) : Error :=
  Error.new .IOError (some e)

/-- A compiled PCRE pattern, modelled as a formal regular expression over
characters. -/
abbrev Pattern := RegularExpression Char

/-- `matchAtStart P s` holds when `P` matches some prefix of `s`: the
anchored-at-start match used by a pattern beginning with the PCRE anchor. -/
def matchAtStart (P : Pattern) : List Char → Bool
  | [] => P.rmatch []
  | c :: cs => P.rmatch [] || matchAtStart (P.deriv c) cs

/-- Unanchored search of pcre2's `is_match`: `P` matches starting at some
position of `m`. -/
def reSearch (P : Pattern) : List Char → Bool
  | [] => matchAtStart P []
  | c :: cs => matchAtStart P (c :: cs) || reSearch P cs

/-- Search semantics of the wrapped pattern of summary mode, the PCRE text
built as start-anchor, then any run of non-newline characters, then the user
pattern: `P` matches starting at some position that is preceded only by
non-newline characters. -/
def summaryMatch (P : Pattern) : List Char → Bool
  | [] => matchAtStart P []
  | c :: cs => matchAtStart P (c :: cs) || (decide (c ≠ '\n') && summaryMatch P cs)

/-- A pattern all of whose matches are newline-free: every character literal
in it is a non-newline character. -/
def nlFree : Pattern → Bool
  | .zero => true
  | .epsilon => true
  | .char c => decide (c ≠ '\n')
  | .plus P Q => nlFree P && nlFree Q
  | .comp P Q => nlFree P && nlFree Q
  | .star P => nlFree P

/-- A message restricted to its first line: the summary, the text before the
first newline. -/
def firstLine (m : List Char) : List Char :=
  m.takeWhile fun c => decide (c ≠ '\n')

/-- The result of `Program::pattern`: the user pattern together with the flag
recording whether it was wrapped for summary mode. -/
structure CompiledRegex where
  summaryWrapped : Bool
  re : Pattern

/-- `Regex::is_match` on a compiled pattern: the summary-wrapped pattern is
anchored behind a run of non-newline characters; otherwise the search is
unanchored. -/
def CompiledRegex.isMatch (r : CompiledRegex) (m : List Char) : Bool :=
  if r.summaryWrapped then summaryMatch r.re m else reSearch r.re m

/-- The `Program` struct: the repository reference and the command-line
options. `text` is the user's pattern text, represented by the outcome pcre2
gives when compiling it. `showFlag` is the `show` field (a Lean keyword). -/
structure Program where
  repo : Repository
  summary : Bool
  showFlag : Bool
  quiet : Bool
  head : String
  text : Except PcreErr Pattern

/-- `Program::new`: a missing revision argument defaults to HEAD. -/
def Program.new (repo : Repository) (summary showFlag quiet : Bool)
    (head : Option String) (text : Except PcreErr Pattern) : Program :=
  ⟨repo, summary, showFlag, quiet, head.getD "HEAD", text⟩

/-- `Program::SORT_TIME`, the bit value passed to `set_sorting`. -/
def Program.SORT_TIME : Nat := 1 <<< 1

/-- `Program::pattern`: wrap the pattern for summary mode, or use it verbatim;
a compilation failure becomes a `PCREError` via the `?` conversion. -/
def Program.pattern (p : Program) (text : Except PcreErr Pattern) :
    Except Error CompiledRegex :=
  match text with
  | .error e => .error (Error.fromPcre e)
  | .ok re => .ok ⟨p.summary, re⟩

/-- The `for rev in walker` loop of `Program::run`, instrumented: the result,
paired with the list of ids handed to `find_commit` (the commits loaded).
A failing iterator item or a failing load aborts immediately; the first
message match returns that commit's id; exhaustion is `NoSuchRevision`. -/
def runSearch (repo : Repository) (regex : CompiledRegex) :
    List (Except GitErr Oid) → Except Error Oid × List Oid
  | [] => (.error (Error.new .NoSuchRevision none), [])
  | .error e :: _ => (.error (Error.fromGit e), [])
  | .ok rev :: rest =>
    match repo.find_commit rev with
    | .error e => (.error (Error.fromGit e), [rev])
    | .ok commit =>
      if regex.isMatch commit.message then (.ok commit.id, [rev])
      else
        let r := runSearch repo regex rest
        (r.1, rev :: r.2)

/-- `Program::run`: compile the pattern, resolve the starting revision, build
the time-sorted walker, and search. The steps appear in source order: the
pattern is compiled first, the revision resolved second. -/
def Program.run (p : Program) : Except Error Oid :=
  match p.pattern p.text with
  | .error e => .error e
  | .ok regex =>
    match p.repo.revparse_single p.head with
    | .error e => .error (Error.fromGit e)
    | .ok head =>
      match p.repo.walk Program.SORT_TIME head with
      | .error e => .error (Error.fromGit e)
      | .ok revs => (runSearch p.repo regex revs).1

/-- What `Program::main` does to the process: exit with a code having written
the given lines (each written line is terminated by a newline, as `writeln!`
does), or panic (the `.unwrap()` on a failed write). -/
inductive MainOutcome where
  | exited (code : Int) (outLines errLines : List String)
  | panicked
deriving DecidableEq

/-- `Program::main`: streams are injected as fallible line writers, and the
external `git show` viewer as a function giving its exit code when one is
available (`None` models termination by signal). On success with the show
flag the viewer's code is propagated, `ExternalProgramFailed` standing in
when unavailable; otherwise the id is written and `Success` returned. On
error the message is written unless the error is non-fatal and quiet mode is
set; a failed write panics via `.unwrap()`. -/
def Program.main (p : Program) (writeOut writeErr : String → Except IoErr Unit)
    (viewer : Oid → Option Int) : MainOutcome :=
  match p.run with
  | .ok oid =>
    if p.showFlag then
      .exited ((viewer oid).getD ExitStatus.ExternalProgramFailed.toCode) [] []
    else
      match writeOut (toString oid) with
      | .ok _ => .exited ExitStatus.Success.toCode [toString oid] []
      | .error _ => .panicked
  | .error e =>
    if e.fatal || !p.quiet then
      match writeErr e.fmt with
      | .ok _ => .exited e.exit_status.toCode [] [e.fmt]
      | .error _ => .panicked
    else
      .exited e.exit_status.toCode [] []

/-! Concrete instances used to exercise the definitions. -/

/-- The regular expression matching exactly one literal string. -/
def lit : List Char → Pattern
  | [] => .epsilon
  | c :: cs => .comp (.char c) (lit cs)

/-- The commits of a three-commit example history. -/
def exCommitOf : Oid → Commit := fun oid =>
  if oid = 3 then ⟨3, "ccc".data⟩
  else if oid = 2 then ⟨2, "ab".data⟩
  else ⟨1, "b".data⟩

/-- An example repository: HEAD resolves to commit 3, whose time-sorted
ancestry is 3, 2, 1. -/
def exRepo : Repository where
  revparse_single := fun s =>
    if s = "HEAD" then .ok 3 else .error ⟨.notFound, "revision not found"⟩
  walk := fun _ oid =>
    if oid = 3 then .ok [.ok 3, .ok 2, .ok 1] else .error ⟨.other, "bad walk root"⟩
  find_commit := fun oid =>
    if 1 ≤ oid ∧ oid ≤ 3 then .ok (exCommitOf oid) else .error ⟨.notFound, "no commit"⟩

/-- An example invocation over `exRepo` whose pattern is the literal b. -/
def exProg : Program :=
  { repo := exRepo, summary := false, showFlag := false, quiet := false,
    head := "HEAD", text := .ok (.char 'b') }

/-- The same invocation with a pattern matching no commit message. -/
def progNoMatch : Program := { exProg with text := .ok (.char 'z') }

/-- The no-match invocation with quiet mode requested. -/
def progNoMatchQuiet : Program := { progNoMatch with quiet := true }

/-- The example invocation with the show flag set. -/
def progShow : Program := { exProg with showFlag := true }

/-- A repository in which no revision text resolves. -/
def exRepoNoRev : Repository where
  revparse_single := fun _ => .error ⟨.notFound, "bad revision"⟩
  walk := fun _ _ => .error ⟨.other, "bad walk root"⟩
  find_commit := fun _ => .error ⟨.notFound, "no commit"⟩

/-- An invocation whose revision does not resolve and whose pattern does not
compile. -/
def progBadBoth : Program :=
  { repo := exRepoNoRev, summary := false, showFlag := false, quiet := false,
    head := "nope", text := .error "missing closing parenthesis" }

/-- An invocation whose pattern compiles but whose revision does not
resolve. -/
def progBadRev : Program :=
  { repo := exRepoNoRev, summary := false, showFlag := false, quiet := false,
    head := "nope", text := .ok (.char 'b') }

/-- A pattern whose text contains an (escaped) newline: the literal a, a
newline, then b. -/
def cexPat : Pattern := .comp (.char 'a') (.comp (.char '\n') (.char 'b'))

/-- A two-line message: a, newline, b. -/
def cexMsg : List Char := "a\nb".data

/-- An output writer that always fails (for example, a broken pipe). -/
def writeFail : String → Except IoErr Unit := fun _ => .error "broken pipe"

/-- A writer that always succeeds. -/
def writeOk : String → Except IoErr Unit := fun _ => .ok ()

/-- A viewer whose exit code is unavailable (terminated by a signal). -/
def viewerNone : Oid → Option Int := fun _ => none

/-- A viewer exiting with code 5. -/
def viewerFive : Oid → Option Int := fun _ => some 5

/-! Semantics of the matcher definitions. -/

/-- `matchAtStart` holds exactly when the pattern matches some prefix. -/
theorem matchAtStart_iff (P : Pattern) (s : List Char) :
    matchAtStart P s = true ↔ ∃ u v, s = u ++ v ∧ P.rmatch u = true := by
  induction s generalizing P with
  | nil =>
    simp only [matchAtStart]
    constructor
    · intro h
      exact ⟨[], [], rfl, h⟩
    · rintro ⟨u, v, h, hu⟩
      obtain ⟨rfl, -⟩ := List.append_eq_nil.mp h.symm
      exact hu
  | cons c cs ih =>
    simp only [matchAtStart, Bool.or_eq_true, ih]
    constructor
    · rintro (h | ⟨u, v, rfl, hu⟩)
      · exact ⟨[], c :: cs, rfl, h⟩
      · exact ⟨c :: u, v, rfl, by simpa [RegularExpression.rmatch] using hu⟩
    · rintro ⟨u, v, h, hu⟩
      cases u with
      | nil =>
        left
        simpa using hu
      | cons b u =>
        right
        rw [List.cons_append, List.cons_eq_cons] at h
        obtain ⟨rfl, rfl⟩ := h
        exact ⟨u, v, rfl, by simpa [RegularExpression.rmatch] using hu⟩

/-- `reSearch` holds exactly when the pattern matches starting at some
position of the message. -/
theorem reSearch_iff (P : Pattern) (m : List Char) :
    reSearch P m = true ↔ ∃ s t, m = s ++ t ∧ matchAtStart P t = true := by
  induction m with
  | nil =>
    simp only [reSearch]
    constructor
    · intro h
      exact ⟨[], [], rfl, h⟩
    · rintro ⟨s, t, h, ht⟩
      obtain ⟨rfl, rfl⟩ := List.append_eq_nil.mp h.symm
      exact ht
  | cons c cs ih =>
    simp only [reSearch, Bool.or_eq_true, ih]
    constructor
    · rintro (h | ⟨s, t, rfl, ht⟩)
      · exact ⟨[], c :: cs, rfl, h⟩
      · exact ⟨c :: s, t, rfl, ht⟩
    · rintro ⟨s, t, h, ht⟩
      cases s with
      | nil =>
        left
        simpa using h ▸ ht
      | cons b s =>
        right
        rw [List.cons_append, List.cons_eq_cons] at h
        obtain ⟨rfl, rfl⟩ := h
        exact ⟨s, t, rfl, ht⟩

/-- `summaryMatch` holds exactly when the pattern matches starting at a
position preceded only by non-newline characters. -/
theorem summaryMatch_iff (P : Pattern) (m : List Char) :
    summaryMatch P m = true ↔
      ∃ s t, m = s ++ t ∧ (∀ c ∈ s, c ≠ '\n') ∧ matchAtStart P t = true := by
  induction m with
  | nil =>
    simp only [summaryMatch]
    constructor
    · intro h
      exact ⟨[], [], rfl, by simp, h⟩
    · rintro ⟨s, t, h, -, ht⟩
      obtain ⟨rfl, rfl⟩ := List.append_eq_nil.mp h.symm
      exact ht
  | cons c cs ih =>
    simp only [summaryMatch, Bool.or_eq_true, Bool.and_eq_true, decide_eq_true_eq, ih]
    constructor
    · rintro (h | ⟨hc, s, t, rfl, hs, ht⟩)
      · exact ⟨[], c :: cs, rfl, by simp, h⟩
      · refine ⟨c :: s, t, rfl, ?_, ht⟩
        intro d hd
        rcases List.mem_cons.mp hd with rfl | hd
        · exact hc
        · exact hs d hd
    · rintro ⟨s, t, h, hs, ht⟩
      cases s with
      | nil =>
        left
        simpa using h ▸ ht
      | cons b s =>
        right
        rw [List.cons_append, List.cons_eq_cons] at h
        obtain ⟨rfl, rfl⟩ := h
        exact ⟨hs c (List.mem_cons_self c s), s, t, rfl,
          fun d hd => hs d (List.mem_cons_of_mem _ hd), ht⟩

/-- Every string matched by a newline-free pattern is newline-free. -/
theorem nlFree_rmatch (P : Pattern) (hP : nlFree P = true) :
    ∀ u, P.rmatch u = true → ∀ c ∈ u, c ≠ '\n' := by
  induction P with
  | zero =>
    intro u hu
    simp [RegularExpression.zero_def, RegularExpression.zero_rmatch] at hu
  | epsilon =>
    intro u hu
    rw [RegularExpression.one_def, RegularExpression.one_rmatch_iff] at hu
    subst hu
    simp
  | char a =>
    intro u hu
    rw [RegularExpression.char_rmatch_iff] at hu
    subst hu
    simpa [nlFree] using hP
  | plus P Q ihP ihQ =>
    rw [nlFree, Bool.and_eq_true] at hP
    intro u hu
    rw [RegularExpression.plus_def, RegularExpression.add_rmatch_iff] at hu
    rcases hu with hu | hu
    · exact ihP hP.1 u hu
    · exact ihQ hP.2 u hu
  | comp P Q ihP ihQ =>
    rw [nlFree, Bool.and_eq_true] at hP
    intro u hu
    rw [RegularExpression.comp_def, RegularExpression.mul_rmatch_iff] at hu
    obtain ⟨t, v, rfl, ht, hv⟩ := hu
    intro c hc
    rcases List.mem_append.mp hc with hc | hc
    · exact ihP hP.1 t ht c hc
    · exact ihQ hP.2 v hv c hc
  | star P ihP =>
    rw [nlFree] at hP
    intro u hu
    rw [RegularExpression.star_rmatch_iff] at hu
    obtain ⟨S, rfl, hS⟩ := hu
    intro c hc
    obtain ⟨t, htS, hct⟩ := List.mem_flatten.mp hc
    exact ihP hP t (hS t htS).2 c hct

/-- Taking while a predicate holds, across an all-satisfying first part. -/
theorem takeWhile_append_all (p : Char → Bool) (l₁ l₂ : List Char)
    (h : ∀ c ∈ l₁, p c = true) :
    (l₁ ++ l₂).takeWhile p = l₁ ++ l₂.takeWhile p := by
  induction l₁ with
  | nil => simp
  | cons c l₁ ih =>
    rw [List.cons_append, List.takeWhile_cons, h c (List.mem_cons_self c l₁)]
    simp [ih fun d hd => h d (List.mem_cons_of_mem _ hd)]

/-! The search loop. -/

/-- Characterisation of the search loop on a clean walk: the result is the
first commit in walk order whose message matches (or the not-found error),
and the commits loaded are exactly the walk's prefix up to and including the
first match. -/
theorem runSearch_spec (repo : Repository) (regex : CompiledRegex) (C : Oid → Commit)
    (revs : List Oid) (hfind : ∀ r ∈ revs, repo.find_commit r = .ok (C r)) :
    runSearch repo regex (revs.map Except.ok)
      = ((revs.find? fun r => regex.isMatch (C r).message).elim
           (Except.error (Error.new .NoSuchRevision none)) (fun r => Except.ok (C r).id),
         revs.take ((revs.findIdx fun r => regex.isMatch (C r).message) + 1)) := by
  induction revs with
  | nil => simp [runSearch, Option.elim]
  | cons r rs ih =>
    have hr := hfind r (List.mem_cons_self r rs)
    have ih' := ih fun x hx => hfind x (List.mem_cons_of_mem _ hx)
    by_cases hm : regex.isMatch (C r).message = true
    · simp [runSearch, hr, hm, List.find?_cons_of_pos, List.findIdx_cons, Option.elim]
    · simp only [Bool.not_eq_true] at hm
      simp [runSearch, hr, hm, List.find?_cons_of_neg, List.findIdx_cons, ih',
        List.take_succ_cons, Option.elim]

/-- C1: for a walk that resolves and loads cleanly, `run` returns the id of
the first commit in the time-sorted walk order whose message matches, or
the `NoSuchRevision` error when none matches; and the commits loaded are
exactly those up to and including the first match — none after it. -/
theorem run_returns_first_match (p : Program) (regex : CompiledRegex) (h : Oid)
    (revs : List Oid) (C : Oid → Commit)
    (hpat : p.pattern p.text = .ok regex)
    (hrev : p.repo.revparse_single p.head = .ok h)
    (hwalk : p.repo.walk Program.SORT_TIME h = .ok (revs.map Except.ok))
    (hfind : ∀ r ∈ revs, p.repo.find_commit r = .ok (C r))
    (hid : ∀ r ∈ revs, (C r).id = r) :
    p.run = ((revs.find? fun r => regex.isMatch (C r).message).elim
        (Except.error (Error.new .NoSuchRevision none)) Except.ok)
      ∧ (runSearch p.repo regex (revs.map Except.ok)).2
          = revs.take ((revs.findIdx fun r => regex.isMatch (C r).message) + 1) := by
  have hspec := runSearch_spec p.repo regex C revs hfind
  constructor
  · simp only [Program.run, hpat, hrev, hwalk, hspec]
    cases hfq : revs.find? fun r => regex.isMatch (C r).message with
    | none => simp [Option.elim]
    | some r =>
      have hmem : r ∈ revs := List.mem_of_find?_eq_some hfq
      simp [Option.elim, hid r hmem]
  · rw [hspec]

/-- C1 witness at the example repository: the literal pattern b first matches
commit 2, and only commits 3 and 2 are loaded. -/
theorem run_returns_first_match_witness :
    (exCommitOf 2).id = 2
    ∧ exProg.run = (([3, 2, 1].find? fun r =>
          (CompiledRegex.mk false (.char 'b')).isMatch (exCommitOf r).message).elim
        (Except.error (Error.new .NoSuchRevision none)) Except.ok)
    ∧ (runSearch exProg.repo (CompiledRegex.mk false (.char 'b'))
          ([3, 2, 1].map Except.ok)).2
        = [3, 2, 1].take (([3, 2, 1].findIdx fun r =>
            (CompiledRegex.mk false (.char 'b')).isMatch (exCommitOf r).message) + 1) := by
  have hmain := run_returns_first_match exProg ⟨false, .char 'b'⟩ 3 [3, 2, 1] exCommitOf
    rfl rfl rfl (by intro r hr; fin_cases hr <;> rfl) (by decide)
  exact ⟨by decide, hmain.1, hmain.2⟩

/-- C2 counterexample: a pattern containing a newline matches in summary mode
even though the first line of the message alone contains no match (and the
non-summary search matches too). -/
theorem summary_cross_line_cex :
    (CompiledRegex.mk true cexPat).isMatch cexMsg = true
    ∧ reSearch cexPat (firstLine cexMsg) = false
    ∧ (CompiledRegex.mk false cexPat).isMatch cexMsg = true := by
  exact ⟨by decide, by decide, by decide⟩

/-- C2 amended: every summary-mode match starts at a position preceded only by
non-newline characters, and for a pattern that can only match newline-free
text, a summary-mode match implies the first line alone contains a match. -/
theorem summary_match_within_first_line (P : Pattern) (m : List Char) :
    (summaryMatch P m = true →
        ∃ s t, m = s ++ t ∧ (∀ c ∈ s, c ≠ '\n') ∧ matchAtStart P t = true)
    ∧ (nlFree P = true → summaryMatch P m = true →
        reSearch P (firstLine m) = true) := by
  constructor
  · exact (summaryMatch_iff P m).mp
  · intro hP h
    obtain ⟨s, t, rfl, hs, ht⟩ := (summaryMatch_iff P _).mp h
    obtain ⟨u, v, rfl, hu⟩ := (matchAtStart_iff P t).mp ht
    have hunl : ∀ c ∈ u, c ≠ '\n' := nlFree_rmatch P hP u hu
    have hfl : firstLine (s ++ (u ++ v)) = s ++ (u ++ firstLine v) := by
      rw [firstLine, ← List.append_assoc,
        takeWhile_append_all _ (s ++ u) v ?_, List.append_assoc]
      · rfl
      · intro c hc
        rcases List.mem_append.mp hc with hc | hc
        · simpa using hs c hc
        · simpa using hunl c hc
    rw [reSearch_iff]
    exact ⟨s, u ++ firstLine v, hfl,
      (matchAtStart_iff P _).mpr ⟨u, firstLine v, rfl, hu⟩⟩

/-- C2 amended witness: the newline-free literal b matches the message ab,
newline, c in summary mode, and matches its first line ab. -/
theorem summary_match_within_first_line_witness :
    nlFree (RegularExpression.char 'b') = true
    ∧ summaryMatch (RegularExpression.char 'b') "ab\nc".data = true
    ∧ reSearch (RegularExpression.char 'b') (firstLine "ab\nc".data) = true :=
  ⟨by decide, by decide,
    (summary_match_within_first_line (RegularExpression.char 'b') "ab\nc".data).2
      (by decide) (by decide)⟩

/-- C3 counterexample: an unresolvable revision combined with a malformed
pattern yields the PCRE error (fatal, exit 2), not `NoSuchRevision`: the
pattern is compiled before the revision is resolved. -/
theorem pattern_compiled_before_revision_cex :
    progBadBoth.run
        = .error (Error.new .PCREError (some "missing closing parenthesis"))
    ∧ (Error.new .PCREError (some "missing closing parenthesis")).kind
        ≠ ErrorKind.NoSuchRevision
    ∧ (Error.new .PCREError (some "missing closing parenthesis")).exit_status.toCode
        = 2 := by
  exact ⟨rfl, by decide, by decide⟩

/-- C3 amended: `run` compiles the pattern first — a malformed pattern yields
the fatal PCRE error regardless of the revision — and only with a compiling
pattern does an unresolvable revision (backend code NotFound) yield the
non-fatal `NoSuchRevision` with exit status 1. -/
theorem run_compiles_pattern_first (p : Program) :
    (∀ e, p.text = .error e →
        p.run = .error (Error.fromPcre e)
        ∧ (Error.fromPcre e).exit_status = .Fatal)
    ∧ (∀ re ge, p.text = .ok re →
        p.repo.revparse_single p.head = .error ge → ge.code = .notFound →
        p.run = .error (Error.fromGit ge)
        ∧ (Error.fromGit ge).kind = .NoSuchRevision
        ∧ (Error.fromGit ge).exit_status.toCode = 1) := by
  constructor
  · intro e he
    exact ⟨by simp only [Program.run, Program.pattern, he], rfl⟩
  · intro re ge hre hrev hcode
    refine ⟨by simp only [Program.run, Program.pattern, hre, hrev], ?_, ?_⟩
    · simp [Error.fromGit, Error.new, hcode]
    · simp [Error.fromGit, Error.new, Error.exit_status, hcode, ExitStatus.toCode]

/-- C3 amended witness: both branches at concrete invocations — a malformed
pattern over an unresolvable revision is the PCRE error, and a compiling
pattern over the same repository is `NoSuchRevision`. -/
theorem run_compiles_pattern_first_witness :
    progBadBoth.text = .error "missing closing parenthesis"
    ∧ progBadBoth.run = .error (Error.fromPcre "missing closing parenthesis")
    ∧ (Error.fromPcre "missing closing parenthesis").exit_status = .Fatal
    ∧ progBadRev.run = .error (Error.fromGit ⟨.notFound, "bad revision"⟩)
    ∧ (Error.fromGit ⟨.notFound, "bad revision"⟩).kind = .NoSuchRevision
    ∧ (Error.fromGit ⟨.notFound, "bad revision"⟩).exit_status.toCode = 1 := by
  have h1 := (run_compiles_pattern_first progBadBoth).1 "missing closing parenthesis" rfl
  have h2 := (run_compiles_pattern_first progBadRev).2 (.char 'b')
    ⟨.notFound, "bad revision"⟩ rfl rfl rfl
  exact ⟨rfl, h1.1, h1.2, h2.1, h2.2.1, h2.2.2⟩

/-- C4: when the walk is exhausted with no matching message, `run` returns
the `NoSuchRevision` error — exit code 1, message text
"fatal: needed a single revision" — and it agrees in kind (the program's own
equality on errors), message text, and exit status with the error produced
when the starting revision fails to resolve. -/
theorem run_exhausted_no_such_revision (p : Program) (regex : CompiledRegex) (h : Oid)
    (revs : List Oid) (C : Oid → Commit)
    (hpat : p.pattern p.text = .ok regex)
    (hrev : p.repo.revparse_single p.head = .ok h)
    (hwalk : p.repo.walk Program.SORT_TIME h = .ok (revs.map Except.ok))
    (hfind : ∀ r ∈ revs, p.repo.find_commit r = .ok (C r))
    (hnone : ∀ r ∈ revs, regex.isMatch (C r).message = false) :
    p.run = .error (Error.new .NoSuchRevision none)
    ∧ (Error.new .NoSuchRevision none).exit_status.toCode = 1
    ∧ (Error.new .NoSuchRevision none).fmt = "fatal: needed a single revision"
    ∧ ∀ ge : GitErr, ge.code = .notFound →
        Error.eqv (Error.fromGit ge) (Error.new .NoSuchRevision none) = true
        ∧ (Error.fromGit ge).fmt = (Error.new .NoSuchRevision none).fmt
        ∧ (Error.fromGit ge).exit_status = (Error.new .NoSuchRevision none).exit_status := by
  have hfq : (revs.find? fun r => regex.isMatch (C r).message) = none :=
    List.find?_eq_none.mpr fun x hx => by simp [hnone x hx]
  refine ⟨?_, rfl, rfl, ?_⟩
  · simp only [Program.run, hpat, hrev, hwalk,
      runSearch_spec p.repo regex C revs hfind, hfq, Option.elim]
  · intro ge hcode
    refine ⟨?_, ?_, ?_⟩
    · simp [Error.eqv, Error.fromGit, Error.new, hcode]
    · simp [Error.fromGit, Error.new, Error.fmt, hcode]
    · simp [Error.fromGit, Error.new, Error.exit_status, hcode]

/-- C4 witness: the pattern z matches no message of the example history, so
`run` is the not-found error, indistinguishable from a bad starting point. -/
theorem run_exhausted_no_such_revision_witness :
    (CompiledRegex.mk false (.char 'z')).isMatch (exCommitOf 3).message = false
    ∧ progNoMatch.run = .error (Error.new .NoSuchRevision none)
    ∧ Error.eqv (Error.fromGit ⟨.notFound, "bad revision"⟩)
        (Error.new .NoSuchRevision none) = true
    ∧ (Error.fromGit ⟨.notFound, "bad revision"⟩).fmt
        = (Error.new .NoSuchRevision none).fmt := by
  have hmain := run_exhausted_no_such_revision progNoMatch ⟨false, .char 'z'⟩ 3
    [3, 2, 1] exCommitOf rfl rfl rfl
    (by intro r hr; fin_cases hr <;> rfl) (by decide)
  have hge := hmain.2.2.2 ⟨.notFound, "bad revision"⟩ rfl
  exact ⟨by decide, hmain.1, hge.1, hge.2.1⟩

/-- C5: the exit-status classification is total: `NoSuchRevision` is the one
non-fatal kind (exit 1), every other kind is fatal (exit 2), the four exit
statuses carry codes 0, 1, 2, 3, and an error is fatal exactly when its exit
status code is 2. -/
theorem exit_status_taxonomy :
    (∀ e : Error, e.exit_status
        = if e.kind = ErrorKind.NoSuchRevision then ExitStatus.NonFatal
          else ExitStatus.Fatal)
    ∧ ExitStatus.Success.toCode = 0 ∧ ExitStatus.NonFatal.toCode = 1
    ∧ ExitStatus.Fatal.toCode = 2 ∧ ExitStatus.ExternalProgramFailed.toCode = 3
    ∧ ∀ e : Error, (e.fatal = true ↔ e.exit_status.toCode = 2) := by
  refine ⟨?_, rfl, rfl, rfl, rfl, ?_⟩
  · rintro ⟨k, i⟩
    cases k <;> simp [Error.exit_status]
  · rintro ⟨k, i⟩
    cases k <;> simp [Error.fatal, Error.exit_status, ExitStatus.toCode]

/-- C6: on an error outcome, `main` writes the error's text to the error
stream exactly when the error is fatal or quiet mode was not requested, and
exits with the error's status. -/
theorem main_error_printing (p : Program)
    (writeOut writeErr : String → Except IoErr Unit) (viewer : Oid → Option Int)
    (e : Error)
    (hrun : p.run = .error e)
    (hw : ∀ s, writeErr s = .ok ()) :
    p.main writeOut writeErr viewer
      = .exited e.exit_status.toCode []
          (if e.fatal || !p.quiet then [e.fmt] else []) := by
  simp only [Program.main, hrun]
  by_cases hf : (e.fatal || !p.quiet) = true
  · simp [hf, hw]
  · simp only [Bool.not_eq_true] at hf
    simp [hf]

/-- C6 witness: a quiet no-match run exits 1 and prints nothing, while the
same non-quiet run prints the diagnostic. -/
theorem main_error_printing_witness :
    progNoMatchQuiet.run = .error (Error.new .NoSuchRevision none)
    ∧ progNoMatchQuiet.main writeOk writeOk viewerNone
        = .exited (Error.new .NoSuchRevision none).exit_status.toCode []
            (if (Error.new .NoSuchRevision none).fatal || !progNoMatchQuiet.quiet
              then [(Error.new .NoSuchRevision none).fmt] else [])
    ∧ progNoMatch.main writeOk writeOk viewerNone
        = .exited (Error.new .NoSuchRevision none).exit_status.toCode []
            (if (Error.new .NoSuchRevision none).fatal || !progNoMatch.quiet
              then [(Error.new .NoSuchRevision none).fmt] else []) := by
  refine ⟨rfl, ?_, ?_⟩
  · exact main_error_printing progNoMatchQuiet writeOk writeOk viewerNone
      (Error.new .NoSuchRevision none) rfl (fun s => rfl)
  · exact main_error_printing progNoMatch writeOk writeOk viewerNone
      (Error.new .NoSuchRevision none) rfl (fun s => rfl)

/-- C7 counterexample: when writing the matched identifier fails, `main`
panics (the unwrap on the failed write) instead of exiting through the fatal
IOError classification with its diagnostic. -/
theorem write_failure_panics_cex :
    exProg.main writeFail writeOk viewerNone = MainOutcome.panicked
    ∧ MainOutcome.panicked
        ≠ MainOutcome.exited (Error.fromIoError "broken pipe").exit_status.toCode []
            [(Error.fromIoError "broken pipe").fmt] := by
  exact ⟨rfl, by decide⟩

/-- C7 amended: an error of kind IOError would be classified fatal with exit
status 2, but `main` never produces one — a failure writing the matched
identifier makes the process panic. -/
theorem write_failure_panics (p : Program)
    (writeOut writeErr : String → Except IoErr Unit) (viewer : Oid → Option Int)
    (oid : Oid) (msg : IoErr)
    (hrun : p.run = .ok oid)
    (hshow : p.showFlag = false)
    (hw : writeOut (toString oid) = .error msg) :
    p.main writeOut writeErr viewer = .panicked
    ∧ (Error.fromIoError msg).exit_status.toCode = 2
    ∧ (Error.fromIoError msg).fatal = true := by
  refine ⟨?_, rfl, rfl⟩
  simp [Program.main, hrun, hshow, hw]

/-- C7 amended witness: the example run succeeds with commit 2, the failing
writer makes `main` panic, and the (unused) IOError classification is
fatal. -/
theorem write_failure_panics_witness :
    exProg.run = .ok 2
    ∧ exProg.main writeFail writeOk viewerNone = .panicked
    ∧ (Error.fromIoError "broken pipe").exit_status.toCode = 2
    ∧ (Error.fromIoError "broken pipe").fatal = true := by
  have hmain := write_failure_panics exProg writeFail writeOk viewerNone 2
    "broken pipe" rfl rfl rfl
  exact ⟨rfl, hmain.1, hmain.2.1, hmain.2.2⟩

/-- C8: on success with the show flag, `main` exits with the viewer's own
code, substituting `ExternalProgramFailed` (3) exactly when that code is
unavailable; without the show flag it writes the single identifier line and
exits `Success` (0). -/
theorem main_success_behavior (p : Program)
    (writeOut writeErr : String → Except IoErr Unit) (viewer : Oid → Option Int)
    (oid : Oid)
    (hrun : p.run = .ok oid)
    (hw : writeOut (toString oid) = .ok ()) :
    p.main writeOut writeErr viewer
      = (if p.showFlag
          then .exited ((viewer oid).getD ExitStatus.ExternalProgramFailed.toCode) [] []
          else .exited ExitStatus.Success.toCode [toString oid] [])
    ∧ ExitStatus.ExternalProgramFailed.toCode = 3
    ∧ ExitStatus.Success.toCode = 0 := by
  refine ⟨?_, rfl, rfl⟩
  simp only [Program.main, hrun]
  by_cases hs : p.showFlag = true
  · simp [hs]
  · simp only [Bool.not_eq_true] at hs
    simp [hs, hw]

/-- C8 witness: the show-flag invocation propagates the signal-killed
viewer's absent code as 3, and the plain invocation prints the identifier
and exits 0. -/
theorem main_success_behavior_witness :
    progShow.run = .ok 2
    ∧ progShow.main writeOk writeOk viewerNone
        = (if progShow.showFlag
            then .exited ((viewerNone 2).getD ExitStatus.ExternalProgramFailed.toCode) [] []
            else .exited ExitStatus.Success.toCode [toString (2 : Oid)] [])
    ∧ progShow.main writeOk writeOk viewerFive = .exited 5 [] []
    ∧ exProg.main writeOk writeOk viewerNone
        = .exited ExitStatus.Success.toCode [toString (2 : Oid)] [] := by
  have h1 := main_success_behavior progShow writeOk writeOk viewerNone 2 rfl rfl
  have h2 := main_success_behavior progShow writeOk writeOk viewerFive 2 rfl rfl
  have h3 := main_success_behavior exProg writeOk writeOk viewerNone 2 rfl rfl
  refine ⟨rfl, h1.1, ?_, ?_⟩
  · rw [h2.1]
    rfl
  · rw [h3.1]
    rfl

/-- C9: `run` is deterministic — two invocations on the same program value
(same request, same repository functions) give the same outcome: equal ids on
success, errors of equal kind and exit status on failure. -/
theorem run_deterministic (p : Program) :
    p.run = p.run
    ∧ (∀ o₁ o₂ : Oid, p.run = .ok o₁ → p.run = .ok o₂ → o₁ = o₂)
    ∧ (∀ e₁ e₂ : Error, p.run = .error e₁ → p.run = .error e₂ →
        e₁.kind = e₂.kind ∧ e₁.exit_status = e₂.exit_status) := by
  refine ⟨rfl, ?_, ?_⟩
  · intro o₁ o₂ h₁ h₂
    exact Except.ok.inj (h₁.symm.trans h₂)
  · intro e₁ e₂ h₁ h₂
    have he := Except.error.inj (h₁.symm.trans h₂)
    exact ⟨he ▸ rfl, he ▸ rfl⟩

/-- C9 witness: two invocations of the example search both return commit 2. -/
theorem run_deterministic_witness :
    exProg.run = .ok 2 ∧ (2 : Oid) = 2 :=
  ⟨rfl, (run_deterministic exProg).2.1 2 2 rfl rfl⟩

/-- C10: every error kind formats with the prefix text "fatal: " — also the
non-fatal `NoSuchRevision`, which formats exactly as
"fatal: needed a single revision" — so the printed text never distinguishes
fatal from non-fatal outcomes. -/
theorem error_fmt_always_fatal_text (e : Error) :
    (∃ r, e.fmt = "fatal: " ++ r)
    ∧ (e.kind = .NoSuchRevision → e.fmt = "fatal: needed a single revision") := by
  obtain ⟨k, i⟩ := e
  constructor
  · cases k <;> cases i <;>
      first
      | exact ⟨"needed a single revision", rfl⟩
      | exact ⟨"invalid regular expression", rfl⟩
      | exact ⟨"unknown I/O error", rfl⟩
      | exact ⟨"an unknown error occurred", rfl⟩
      | (rename_i s
         first
         | exact ⟨"invalid regular expression: " ++ s, by
             show "fatal: invalid regular expression: " ++ s = _
             rw [show ("fatal: invalid regular expression: " : String)
                   = "fatal: " ++ "invalid regular expression: " from rfl,
               String.append_assoc]⟩
         | exact ⟨"I/O error: " ++ s, by
             show "fatal: I/O error: " ++ s = _
             rw [show ("fatal: I/O error: " : String)
                   = "fatal: " ++ "I/O error: " from rfl,
               String.append_assoc]⟩
         | exact ⟨s, rfl⟩)
  · intro hk
    cases hk
    cases i <;> rfl

/-- C10 witness: the not-found error carries the exact git-compatible text. -/
theorem error_fmt_always_fatal_text_witness :
    (Error.new .NoSuchRevision none).kind = ErrorKind.NoSuchRevision
    ∧ (Error.new .NoSuchRevision none).fmt = "fatal: needed a single revision" :=
  ⟨rfl, (error_fmt_always_fatal_text (Error.new .NoSuchRevision none)).2 rfl⟩

end GitAt
